import Mathlib

/-!
Shallow embedding of the bettergit action-history / undo / target-resolution
core (src/bettergit/history.py and src/bettergit/cli.py).

The persisted history file is modelled as its parsed content, a
`List ActionRecord`; JSON values occurring in the per-action `details` /
`undo_details` dictionaries are modelled by `JVal`.  External collaborators
(the git executable, configured accounts, interactive prompts) are modelled
as explicit environment records; every `run_git_command` invocation an
operation performs is returned as a trace of argument vectors.
-/

/-- A JSON-like value, as stored in the `details`/`undo_details` dicts. -/
inductive JVal where
  | null
  | bool (b : Bool)
  | str (s : String)
  | num (n : Int)
deriving DecidableEq, Repr

/-- A Python dict with string keys, modelled as an association list. -/
abbrev Dict := List (String × JVal)

/-- `d.get(k)`: first value bound to `k`, if any. -/
def dictGet (d : Dict) (k : String) : Option JVal :=
  (d.find? (fun p => p.1 == k)).map (·.2)

/-- Python truthiness of an optional JSON value (`None`/missing is falsy). -/
def truthy : Option JVal → Bool
  | none => false
  | some .null => false
  | some (.bool b) => b
  | some (.str s) => !s.isEmpty
  | some (.num n) => n != 0

/-- One entry of the action history (history.py, `log_action`'s `action` dict). -/
structure ActionRecord where
  id : Nat
  timestamp : String
  action_type : String
  details : Dict
  undo_command : Option String
  undo_details : Dict
deriving DecidableEq, Repr

/-- The caller-supplied arguments of one `log_action` call
(`action_type`, `details`, `undo_command`, `undo_details`), together with the
timestamp the call would capture. -/
structure AppendInput where
  action_type : String
  details : Dict
  undo_command : Option String
  undo_details : Option Dict
  timestamp : String
deriving DecidableEq, Repr

/-- The renumbering loop of `log_action` (history.py lines 87-89):
`for i, action in enumerate(history): action["id"] = i + 1`. -/
def renumber (l : List ActionRecord) : List ActionRecord :=
  l.enum.map (fun p => { p.2 with id := p.1 + 1 })

/-- `ActionHistory.log_action` (history.py lines 58-96), acting on the parsed
history list: build the record with `id = len(history) + 1`, append it, and if
the length now exceeds 50 keep only the last 50 entries and renumber their ids
to `1..50`. -/
def log_action (history : List ActionRecord) (inp : AppendInput) : List ActionRecord :=
  let action : ActionRecord :=
    { id := history.length + 1
      timestamp := inp.timestamp
      action_type := inp.action_type
      details := inp.details
      undo_command := inp.undo_command
      undo_details := inp.undo_details.getD [] }
  let history := history ++ [action]
  if 50 < history.length then
    renumber (history.drop (history.length - 50))
  else
    history

/-- Python slice `h[s:]` for a possibly negative start `s`. -/
def pySliceFrom (h : List ActionRecord) (s : Int) : List ActionRecord :=
  if s < 0 then h.drop (h.length - (-s).toNat) else h.drop s.toNat

/-- `ActionHistory.get_history` (history.py lines 98-103):
`if limit: return history[-limit:]` — note `limit = 0` is falsy in Python, so
it is treated exactly like `limit = None` and the whole history is returned. -/
def get_history (history : List ActionRecord) (limit : Option Int) : List ActionRecord :=
  match limit with
  | some l => if l != 0 then pySliceFrom history (-l) else history
  | none => history

/-- `ActionHistory.get_last_action` (history.py lines 105-108). -/
def get_last_action (history : List ActionRecord) : Option ActionRecord :=
  history.getLast?

/-- `ActionHistory.remove_last_action` (history.py lines 110-122): pop and
return the last record; on an empty history return `None` and leave it empty.
Result is `(returned record, new history)`. -/
def remove_last_action (history : List ActionRecord) :
    Option ActionRecord × List ActionRecord :=
  match history.getLast? with
  | none => (none, history)
  | some a => (some a, history.dropLast)

/-- `ActionHistory.clear_history` (history.py lines 124-130). -/
def clear_history (_history : List ActionRecord) : List ActionRecord := []

/-- The public method names the `ActionHistory` class defines
(history.py lines 19-141). -/
def ActionHistoryMethods : List String :=
  ["__init__", "_ensure_history_exists", "_load_history", "_save_history",
   "log_action", "get_history", "get_last_action", "remove_last_action",
   "clear_history", "get_undoable_actions"]

/-- Fold a sequence of `log_action` appends over a starting history. -/
def appendAll (history : List ActionRecord) (inputs : List AppendInput) :
    List ActionRecord :=
  inputs.foldl log_action history

/-- The id-independent content of a record. -/
structure RecordContent where
  timestamp : String
  action_type : String
  details : Dict
  undo_command : Option String
  undo_details : Dict
deriving DecidableEq, Repr

/-- Content of a stored record. -/
def content (r : ActionRecord) : RecordContent :=
  ⟨r.timestamp, r.action_type, r.details, r.undo_command, r.undo_details⟩

/-- Content a `log_action` call with the given arguments stores
(absent `undo_details` becomes the empty dict). -/
def mkContent (inp : AppendInput) : RecordContent :=
  ⟨inp.timestamp, inp.action_type, inp.details, inp.undo_command,
    inp.undo_details.getD []⟩

/-- The dense-ids invariant: ids are exactly `1..length` in order. -/
def idsDense (h : List ActionRecord) : Prop :=
  h.map ActionRecord.id = List.range' 1 h.length

/-!  Target resolution (cli.py `_identify_switch_target`, `_identify_undo_target`).

The git collaborator is modelled by `ResolveEnv`: the stdout of
`git branch -a` (or `none` when that call raises `GitError`), the configured
account aliases, and whether `git rev-parse <target>` exits successfully.
Each resolver returns its classification string together with the trace of
`run_git_command` argument vectors it issued.  -/

/-!  Python string primitives, modelled over `List Char` so that every
operation is structurally recursive and evaluates inside the kernel.  -/

/-- Split on every character satisfying `p`, keeping empty pieces — the
semantics of Python's `s.split('\n')` (with `p = (· == '\n')`). -/
def splitOnPred (p : Char → Bool) : List Char → List (List Char)
  | [] => [[]]
  | c :: rest =>
    if p c then [] :: splitOnPred p rest
    else
      match splitOnPred p rest with
      | [] => [[c]]
      | h :: t => (c :: h) :: t

/-- Python `s.strip()`: whitespace removed from both ends. -/
def stripList (l : List Char) : List Char :=
  ((l.dropWhile Char.isWhitespace).reverse.dropWhile Char.isWhitespace).reverse

/-- Python `s.lstrip('* ')`: leading `'*'` and `' '` characters removed. -/
def lstripStarSpace (l : List Char) : List Char :=
  l.dropWhile (fun c => c == '*' || c == ' ')

/-- Fuel-driven worker for `replaceList`; `fuel ≥ l.length` makes it total. -/
def replaceFuel (pat rep : List Char) : Nat → List Char → List Char
  | 0, l => l
  | _ + 1, [] => []
  | fuel + 1, c :: rest =>
    if !pat.isEmpty && pat.isPrefixOf (c :: rest) then
      rep ++ replaceFuel pat rep fuel (rest.drop (pat.length - 1))
    else
      c :: replaceFuel pat rep fuel rest

/-- Python `s.replace(pat, rep)` for a non-empty pattern: replace every
non-overlapping occurrence, scanning left to right. -/
def replaceList (pat rep l : List Char) : List Char :=
  replaceFuel pat rep l.length l

/-- Python `pat in s`: substring containment. -/
def containsSub (pat : List Char) : List Char → Bool
  | [] => pat.isEmpty
  | c :: rest => pat.isPrefixOf (c :: rest) || containsSub pat rest

/-- Collaborator state seen by the target resolvers. -/
structure ResolveEnv where
  branch_listing : Option String
  accounts : List String
  rev_parse_ok : String → Bool

/-- `len(target) >= 4 and all(c in '0123456789abcdef' for c in target.lower())`
(cli.py lines 782 and 1278).  Character-wise, `c.lower()` lies in
`0123456789abcdef` exactly when `c` is a (lower- or upper-case) hex digit. -/
def looks_like_commit_hash (target : String) : Bool :=
  decide (4 ≤ target.length) &&
    target.toList.all (fun c =>
      "0123456789abcdef".toList.contains c || "ABCDEF".toList.contains c)

/-- The branch names `_identify_switch_target` compares against: each line of
`git branch -a` output, stripped, with leading `'* '` characters removed and
every occurrence of `"remotes/origin/"` deleted (cli.py lines 769-770). -/
def switch_branch_names (branches_output : String) : List (List Char) :=
  (splitOnPred (fun c => c == '\n') branches_output.toList).map (fun line =>
    replaceList "remotes/origin/".toList [] (lstripStarSpace (stripList line)))

/-- The branch test of `_identify_switch_target` (cli.py lines 768-772): some
processed line equals the target. -/
def switch_is_branch (env : ResolveEnv) (target : String) : Bool :=
  match env.branch_listing with
  | some out => (switch_branch_names out).contains target.toList
  | none => false

/-- `_identify_switch_target` (cli.py lines 764-785): branch, then account,
then commit-hash shape, else unknown.  Second component: the trace of git
commands issued. -/
def identify_switch_target (env : ResolveEnv) (target : String) :
    String × List (List String) :=
  if switch_is_branch env target then ("branch", [["branch", "-a"]])
  else if env.accounts.contains target then ("account", [["branch", "-a"]])
  else if looks_like_commit_hash target then ("commit", [["branch", "-a"]])
  else ("unknown", [["branch", "-a"]])

/-- The branch test of `_identify_undo_target` (cli.py lines 1265-1273): some
stripped line equals `target`, or equals `"remotes/origin/" + target`, or
starts with `"remotes/origin/"` and its tail from character 15 on equals
`target`. -/
def undo_branch_match (branches_output : String) (target : String) : Bool :=
  (splitOnPred (fun c => c == '\n') branches_output.toList).any (fun line0 =>
    let line := lstripStarSpace (stripList line0)
    line == target.toList ||
      line == "remotes/origin/".toList ++ target.toList ||
      ("remotes/origin/".toList.isPrefixOf line && line.drop 15 == target.toList))

/-- The branch test of `_identify_undo_target` against the environment. -/
def undo_is_branch (env : ResolveEnv) (target : String) : Bool :=
  match env.branch_listing with
  | some out => undo_branch_match out target
  | none => false

/-- `_identify_undo_target` (cli.py lines 1261-1286): branch first; otherwise,
when the target is hex-shaped of length ≥ 4, probe `git rev-parse target` and
classify as commit only if the probe succeeds; else unknown. -/
def identify_undo_target (env : ResolveEnv) (target : String) :
    String × List (List String) :=
  if undo_is_branch env target then ("branch", [["branch", "-a"]])
  else if looks_like_commit_hash target then
    if env.rev_parse_ok target then
      ("commit", [["branch", "-a"], ["rev-parse", target]])
    else
      ("unknown", [["branch", "-a"], ["rev-parse", target]])
  else ("unknown", [["branch", "-a"]])

/-!  Undo engine (cli.py `_perform_undo`, `_single_undo`, `_interactive_undo`).

`UndoEnv` models the interactive prompts (each answer an oracle) and which git
invocations raise `GitError`.  `_perform_undo` returns the trace of git
commands it ran, whether a `GitError` escaped, and whether the
"Don't know how to undo action type" warning was printed.  -/

/-- Prompt answers and git failure behaviour for one undo flow. -/
structure UndoEnv where
  confirm_undo : Bool
  extreme_confirm : Bool
  batch_confirm : Bool
  select_index : Option Nat
  git_fails : List String → Bool

/-- Outcome of one `_perform_undo` call. -/
structure PerformOut where
  trace : List (List String)
  raised : Bool
  warned : Bool
deriving Repr

/-- One `run_git_command` call inside `_perform_undo`. -/
def run1 (env : UndoEnv) (cmd : List String) : PerformOut :=
  { trace := [cmd], raised := env.git_fails cmd, warned := false }

/-- Python `s.split()`: split on whitespace runs, dropping empty pieces. -/
def pySplitWS (s : String) : List (List Char) :=
  (splitOnPred Char.isWhitespace s.toList).filter (fun t => !t.isEmpty)

/-- Python truthiness of the optional `undo_command` string (`None` and the
empty string are falsy). -/
def truthyStr : Option String → Bool
  | none => false
  | some s => !s.isEmpty

/-- `_perform_undo` (cli.py lines 1196-1236), table-driven on `action_type`:
save → soft reset; merge → hard reset to ORIG_HEAD; push → when
`undo_details.get('dangerous')` is truthy, an extreme confirmation gates the
forced push and declining returns silently; pull → hard reset to the reflog
marker; stash → pop; switch with a truthy `undo_command` containing
`"git switch"` → switch to the command's last whitespace-separated token;
anything else → the "Don't know how to undo" warning and no git call. -/
def perform_undo (env : UndoEnv) (a : ActionRecord) : PerformOut :=
  if a.action_type == "save" then
    run1 env ["reset", "--soft", "HEAD~1"]
  else if a.action_type == "merge" then
    run1 env ["reset", "--hard", "ORIG_HEAD"]
  else if a.action_type == "push" then
    if truthy (dictGet a.undo_details "dangerous") && !env.extreme_confirm then
      { trace := [], raised := false, warned := false }
    else
      run1 env ["push", "--force"]
  else if a.action_type == "pull" then
    run1 env ["reset", "--hard", "HEAD@{1}"]
  else if a.action_type == "stash" then
    run1 env ["stash", "pop"]
  else if a.action_type == "switch" && truthyStr a.undo_command then
    let uc := a.undo_command.getD ""
    if containsSub "git switch".toList uc.toList then
      match (pySplitWS uc).getLast? with
      | some branch => run1 env ["switch", branch.asString]
      | none =>
        -- unreachable: `uc` contains "git switch", so `pySplitWS uc ≠ []`
        { trace := [], raised := true, warned := false }
    else
      { trace := [], raised := false, warned := false }
  else
    { trace := [], raised := false, warned := true }

/-- Terminal status of `_single_undo`. -/
inductive SingleStatus where
  | nothing_to_undo | cancelled | raised | completed
deriving DecidableEq, Repr

/-- Result of `_single_undo`: the history afterwards, the git trace, whether
the unknown-action warning fired, and how the flow ended. -/
structure SingleOut where
  history : List ActionRecord
  trace : List (List String)
  warned : Bool
  status : SingleStatus
deriving Repr

/-- `_single_undo` (cli.py lines 1178-1193): take the last action (none →
"No actions to undo"); ask a default-yes confirmation; run `_perform_undo`;
a `GitError` escaping it propagates before any history change; otherwise
`remove_last_action()` is called unconditionally. -/
def single_undo (env : UndoEnv) (h : List ActionRecord) : SingleOut :=
  match get_last_action h with
  | none => { history := h, trace := [], warned := false, status := .nothing_to_undo }
  | some last =>
    if !env.confirm_undo then
      { history := h, trace := [], warned := false, status := .cancelled }
    else
      let out := perform_undo env last
      if out.raised then
        { history := h, trace := out.trace, warned := out.warned, status := .raised }
      else
        { history := (remove_last_action h).2, trace := out.trace
          warned := out.warned, status := .completed }

/-- The action types `_interactive_undo` knows how to undo (cli.py line 1032). -/
def known_undoable : List String :=
  ["save", "merge", "push", "pull", "stash", "switch"]

/-- The filter step of `_interactive_undo` (cli.py lines 1026-1035): walk the
loaded actions most-recent-first, keeping those with a non-`None`
`undo_command` or a known-undoable `action_type`. -/
def undoable_filter (actions : List ActionRecord) : List ActionRecord :=
  actions.reverse.filter
    (fun a => a.undo_command.isSome || known_undoable.contains a.action_type)

/-- The reversal loop of `_interactive_undo` (cli.py lines 1155-1162): call
`_perform_undo` on each action in order, counting successes, and break on the
first escaping exception.  Returns (actions attempted, success count). -/
def undo_batch (env : UndoEnv) : List ActionRecord → List ActionRecord × Nat
  | [] => ([], 0)
  | a :: rest =>
    let out := perform_undo env a
    if out.raised then ([a], 0)
    else
      let r := undo_batch env rest
      (a :: r.1, r.2 + 1)

/-- Terminal status of `_interactive_undo`. -/
inductive InterStatus where
  | no_actions | no_undoable | cancelled | attr_error | nothing_removed
deriving DecidableEq, Repr

/-- Result of `_interactive_undo`. -/
structure InterOut where
  history : List ActionRecord
  attempted : List ActionRecord
  successes : Nat
  status : InterStatus
deriving Repr

/-- `_interactive_undo` (cli.py lines 1015-1175): load the last 20 actions,
filter to undoable ones most-recent-first, let the user pick an entry
(`env.select_index` is the index of the picked entry in the displayed list;
the source recovers this index from the chosen display string at line 1119),
take the contiguous most-recent prefix through that entry, ask one blanket
confirmation, and run the reversal loop.  When at least one reversal
succeeded, line 1167 calls `history_manager.remove_action(action['id'])` —
but `ActionHistory` (history.py) defines no `remove_action` method, so the
call raises `AttributeError`, which the handler at lines 1174-1175 catches:
the stored history is never modified by this flow. -/
def interactive_undo (env : UndoEnv) (h : List ActionRecord) : InterOut :=
  let actions := get_history h (some 20)
  if actions.isEmpty then
    { history := h, attempted := [], successes := 0, status := .no_actions }
  else
    let undoable := undoable_filter actions
    if undoable.isEmpty then
      { history := h, attempted := [], successes := 0, status := .no_undoable }
    else
      match env.select_index with
      | none =>
        { history := h, attempted := [], successes := 0, status := .cancelled }
      | some i =>
        if !env.batch_confirm then
          { history := h, attempted := [], successes := 0, status := .cancelled }
        else
          let r := undo_batch env (undoable.take (i + 1))
          if 0 < r.2 then
            { history := h, attempted := r.1, successes := r.2, status := .attr_error }
          else
            { history := h, attempted := r.1, successes := r.2, status := .nothing_removed }

/-!  Concrete inputs used to evaluate the embedded code at specific points. -/

/-- A `push` record carrying `undo_details.dangerous = true`. -/
def pushDangerRec : ActionRecord :=
  ⟨1, "t", "push", [("branch", JVal.str "main")], none, [("dangerous", JVal.bool true)]⟩

/-- A record whose action type has no known reversal. -/
def createBranchRec : ActionRecord := ⟨1, "t", "create_branch", [], none, []⟩

/-- Prompt answers: confirm the undo, decline the extreme confirmation. -/
def envDecline : UndoEnv := ⟨true, false, true, none, fun _ => false⟩

/-- A `save` record with a message. -/
def recSave (n : Nat) (msg : String) : ActionRecord :=
  ⟨n, "t", "save", [("message", JVal.str msg)], none, []⟩

/-- A `merge` record. -/
def recMerge4 : ActionRecord := ⟨4, "t", "merge", [], none, []⟩

/-- A `stash` record. -/
def recStash5 : ActionRecord := ⟨5, "t", "stash", [], none, []⟩

/-- A log of five undoable records, most recent last. -/
def histFive : List ActionRecord :=
  [recSave 1 "a", recSave 2 "b", recSave 3 "c", recMerge4, recStash5]

/-- Interactive run: pick the 3rd-most-recent entry, confirm, git succeeds. -/
def envBatchOK : UndoEnv := ⟨true, true, true, some 2, fun _ => false⟩

/-- Same, but the `merge` reversal (`git reset --hard ORIG_HEAD`) raises. -/
def envBatchFail : UndoEnv :=
  ⟨true, true, true, some 2, fun c => c == ["reset", "--hard", "ORIG_HEAD"]⟩

/-- C2: evaluating `_single_undo` on a log whose last record is a `push` with
`undo_details.dangerous = true`, with the user confirming the undo but
declining the extreme-tier confirmation: no git command is run (the claim's
first half holds), yet the record is removed from the log — `_single_undo`
calls `remove_last_action()` unconditionally after `_perform_undo` returns,
so the log does not stay unchanged as the claim states. -/
theorem c2_declined_push_still_removes_record :
    (single_undo envDecline [pushDangerRec]).trace = [] ∧
    (single_undo envDecline [pushDangerRec]).history = [] ∧
    [pushDangerRec] ≠ ([] : List ActionRecord) := by decide

/-- C4: evaluating `_single_undo` on a log whose last record has action type
`create_branch` (no known reversal), with the user confirming: the warning
fires and no git command is run (those halves of the claim hold), yet the
record is removed from the log — `remove_last_action()` runs unconditionally,
so the record is not left in place as the claim states. -/
theorem c4_unknown_action_still_removes_record :
    (single_undo envDecline [createBranchRec]).warned = true ∧
    (single_undo envDecline [createBranchRec]).trace = [] ∧
    (single_undo envDecline [createBranchRec]).history = [] ∧
    [createBranchRec] ≠ ([] : List ActionRecord) := by decide

/-- C3: evaluating `_interactive_undo` on a log of 5 undoable records with the
3rd-most-recent selected and confirmed: when every reversal succeeds the
attempted sequence is exactly most-recent, 2nd-most-recent, 3rd-most-recent
(that half of the claim holds); when the 2nd reversal raises, one reversal has
succeeded, but the log afterwards is unchanged — the removal loop's call to
`history_manager.remove_action` (cli.py line 1167) raises `AttributeError`
because `ActionHistory` defines no such method, so the most recent record is
not removed as the claim states. -/
theorem c3_interactive_undo_eval :
    (interactive_undo envBatchOK histFive).attempted =
      [recStash5, recMerge4, recSave 3 "c"] ∧
    (interactive_undo envBatchFail histFive).attempted = [recStash5, recMerge4] ∧
    (interactive_undo envBatchFail histFive).successes = 1 ∧
    (interactive_undo envBatchFail histFive).history = histFive ∧
    (interactive_undo envBatchFail histFive).status = InterStatus.attr_error := by
  decide

/-- C5: the Action Log Store (`ActionHistory`, history.py) defines neither a
`remove_by_id` nor a `remove_action` method; the only removal operations it
provides are `remove_last_action` and `clear_history`. -/
theorem c5_no_remove_by_id_method :
    "remove_by_id" ∉ ActionHistoryMethods ∧
    "remove_action" ∉ ActionHistoryMethods ∧
    "remove_last_action" ∈ ActionHistoryMethods ∧
    "clear_history" ∈ ActionHistoryMethods := by decide

/-- A minimal stored record. -/
def saveRecA : ActionRecord := ⟨1, "ta", "save", [], none, []⟩

/-- A second minimal stored record. -/
def saveRecB : ActionRecord := ⟨2, "tb", "save", [], none, []⟩

/-- C8 counterexample: `get_history` with limit `0` returns the whole log
(Python `if limit:` treats `0` as falsy), not the most recent 0 records. -/
theorem c8_limit_zero_returns_whole_log :
    get_history [saveRecA] (some 0) = [saveRecA] ∧
    [saveRecA] ≠ ([] : List ActionRecord) := by decide

/-- C8 (amended): for every limit ≥ 1, `get_history` returns exactly the most
recent `limit` records as a chronological suffix of the log (oldest of the
selected window first, not reversed); limit 0 behaves like no limit and
returns the whole log. -/
theorem c8_read_tail_is_suffix (h : List ActionRecord) (l : Int) :
    (1 ≤ l → get_history h (some l) = h.drop (h.length - l.toNat)) ∧
    get_history h (some 0) = h := by
  constructor
  · intro hl
    have h0 : (l != 0) = true := by
      simp only [bne_iff_ne, ne_eq]
      omega
    have h1 : -l < 0 := by omega
    simp [get_history, pySliceFrom, h0, h1]
  · simp [get_history]

/-- Witness for C8 (amended), at a two-record log and limit 1. -/
theorem c8_read_tail_is_suffix_witness :
    get_history [saveRecA, saveRecB] (some 1) = [saveRecB] := by
  have h := (c8_read_tail_is_suffix [saveRecA, saveRecB] 1).1 (by decide)
  simpa using h

/-- If `_identify_switch_target` answers `commit`, the hex-shape test passed. -/
theorem identify_switch_commit_only_if_hex (env : ResolveEnv) (target : String)
    (h : (identify_switch_target env target).1 = "commit") :
    looks_like_commit_hash target = true := by
  unfold identify_switch_target at h
  split_ifs at h with h1 h2 h3
  · exact absurd h (by decide)
  · exact absurd h (by decide)
  · exact h3
  · exact absurd h (by decide)

/-- If `_identify_undo_target` answers `commit`, the hex-shape test passed. -/
theorem identify_undo_commit_only_if_hex (env : ResolveEnv) (target : String)
    (h : (identify_undo_target env target).1 = "commit") :
    looks_like_commit_hash target = true := by
  unfold identify_undo_target at h
  split_ifs at h with h1 h2 h3
  · exact absurd h (by decide)
  · exact h2
  · exact h2
  · exact absurd h (by decide)

/-- C6: both resolvers check Branch before Commit: whenever the branch test
succeeds the result is `branch` (never `commit`), whatever shape the string
has; and a string of length ≤ 3 (in particular any all-hex string of length
≤ 3) never resolves to `commit` in either resolver, regardless of whether
such a revision exists. -/
theorem c6_branch_before_commit (env : ResolveEnv) (target : String) :
    (∀ out, env.branch_listing = some out →
      (switch_branch_names out).contains target.toList = true →
      (identify_switch_target env target).1 = "branch") ∧
    (∀ out, env.branch_listing = some out →
      undo_branch_match out target = true →
      (identify_undo_target env target).1 = "branch") ∧
    (target.length ≤ 3 → (identify_switch_target env target).1 ≠ "commit") ∧
    (target.length ≤ 3 → (identify_undo_target env target).1 ≠ "commit") := by
  have hx : target.length ≤ 3 → looks_like_commit_hash target = false := by
    intro hlen
    unfold looks_like_commit_hash
    have h4 : decide (4 ≤ target.length) = false := by
      simp only [decide_eq_false_iff_not]
      omega
    simp [h4]
  refine ⟨?_, ?_, ?_, ?_⟩
  · intro out hb hmem
    have hsb : switch_is_branch env target = true := by
      unfold switch_is_branch
      rw [hb]
      exact hmem
    unfold identify_switch_target
    rw [if_pos hsb]
  · intro out hb hmem
    have hub : undo_is_branch env target = true := by
      unfold undo_is_branch
      rw [hb]
      exact hmem
    unfold identify_undo_target
    rw [if_pos hub]
  · intro hlen heq
    have hc := identify_switch_commit_only_if_hex env target heq
    rw [hx hlen] at hc
    exact absurd hc (by decide)
  · intro hlen heq
    have hc := identify_undo_commit_only_if_hex env target heq
    rw [hx hlen] at hc
    exact absurd hc (by decide)

/-- Environment for the C6 witness: `abc` is a listed branch name. -/
def envC6 : ResolveEnv := ⟨some "* abc\n  feat", [], fun _ => false⟩

/-- Witness for C6 at a concrete environment and the 3-character branch
name `abc`. -/
theorem c6_branch_before_commit_witness :
    (identify_switch_target envC6 "abc").1 = "branch" ∧
    (identify_undo_target envC6 "abc").1 = "branch" ∧
    (identify_switch_target envC6 "abc").1 ≠ "commit" ∧
    (identify_undo_target envC6 "abc").1 ≠ "commit" := by
  have h := c6_branch_before_commit envC6 "abc"
  exact ⟨h.1 "* abc\n  feat" rfl (by decide), h.2.1 "* abc\n  feat" rfl (by decide),
    h.2.2.1 (by decide), h.2.2.2 (by decide)⟩

/-- C7: for a hex-shaped target of length ≥ 4 that matches neither resolver's
branch test nor an account alias, `_identify_undo_target` probes
`git rev-parse` and answers `commit` exactly when the probe succeeds
(`unknown` otherwise), while `_identify_switch_target` answers `commit` on
the shape check alone and issues no `rev-parse` command. -/
theorem c7_commit_probe_asymmetry (env : ResolveEnv) (target out : String)
    (hb : env.branch_listing = some out)
    (hs : (switch_branch_names out).contains target.toList = false)
    (hu : undo_branch_match out target = false)
    (ha : env.accounts.contains target = false)
    (hhex : looks_like_commit_hash target = true) :
    (identify_undo_target env target =
      if env.rev_parse_ok target then
        ("commit", [["branch", "-a"], ["rev-parse", target]])
      else
        ("unknown", [["branch", "-a"], ["rev-parse", target]])) ∧
    identify_switch_target env target = ("commit", [["branch", "-a"]]) := by
  have hub : undo_is_branch env target = false := by
    unfold undo_is_branch
    rw [hb]
    exact hu
  have hsb : switch_is_branch env target = false := by
    unfold switch_is_branch
    rw [hb]
    exact hs
  constructor
  · unfold identify_undo_target
    rw [if_neg (by rw [hub]; exact Bool.false_ne_true), if_pos hhex]
  · unfold identify_switch_target
    rw [if_neg (by rw [hsb]; exact Bool.false_ne_true),
      if_neg (by rw [ha]; exact Bool.false_ne_true), if_pos hhex]

/-- Environment for the C7 witness: only `main` is a branch, `work` the only
account alias, and only `beef` rev-parses successfully. -/
def envC7 : ResolveEnv := ⟨some "* main", ["work"], fun s => s == "beef"⟩

/-- Witness for C7 at the hex-shaped non-branch target `beef`. -/
theorem c7_commit_probe_asymmetry_witness :
    identify_undo_target envC7 "beef" =
      ("commit", [["branch", "-a"], ["rev-parse", "beef"]]) ∧
    identify_switch_target envC7 "beef" = ("commit", [["branch", "-a"]]) := by
  have h := c7_commit_probe_asymmetry envC7 "beef" "* main" rfl (by decide)
    (by decide) (by decide) (by decide)
  have hrp : envC7.rev_parse_ok "beef" = true := by decide
  refine ⟨?_, h.2⟩
  rw [h.1, if_pos hrp]

/-- The record a `log_action` call on history `h` constructs (history.py
lines 73-80). -/
def newRec (h : List ActionRecord) (inp : AppendInput) : ActionRecord :=
  { id := h.length + 1
    timestamp := inp.timestamp
    action_type := inp.action_type
    details := inp.details
    undo_command := inp.undo_command
    undo_details := inp.undo_details.getD [] }

/-- Unfolding of `log_action` in terms of `newRec`. -/
theorem log_action_eq (h : List ActionRecord) (inp : AppendInput) :
    log_action h inp =
      if 50 < h.length + 1 then
        renumber ((h ++ [newRec h inp]).drop (h.length + 1 - 50))
      else h ++ [newRec h inp] := by
  unfold log_action newRec
  simp [List.length_append]

/-- Renumbering keeps the length. -/
theorem renumber_length (l : List ActionRecord) : (renumber l).length = l.length := by
  simp [renumber, List.enum_length]

/-- Renumbering an `enumFrom k` block assigns ids `k+1, k+2, ...`. -/
theorem enumFrom_renumber_ids (l : List ActionRecord) :
    ∀ k, ((List.enumFrom k l).map
        (fun p => { p.2 with id := p.1 + 1 })).map ActionRecord.id =
      List.range' (k + 1) l.length := by
  induction l with
  | nil => intro k; rfl
  | cons a t ih =>
    intro k
    simp only [List.enumFrom, List.map_cons, List.length_cons]
    rw [List.range'_succ]
    exact congrArg (List.cons (k + 1)) (ih (k + 1))

/-- Renumbering assigns ids `1..length`. -/
theorem renumber_map_id (l : List ActionRecord) :
    (renumber l).map ActionRecord.id = List.range' 1 l.length := by
  have h := enumFrom_renumber_ids l 0
  simpa [renumber, List.enum] using h

/-- Renumbering does not change record contents. -/
theorem renumber_map_content (l : List ActionRecord) :
    (renumber l).map content = l.map content := by
  rw [renumber, List.map_map]
  have h : (content ∘ fun p : Nat × ActionRecord => { p.2 with id := p.1 + 1 }) =
      content ∘ Prod.snd := by
    funext p
    rfl
  rw [h, ← List.map_map, List.enum_map_snd]

/-- The length of the history after one append: capped at 50. -/
theorem log_action_length (h : List ActionRecord) (inp : AppendInput) :
    (log_action h inp).length = min (h.length + 1) 50 := by
  rw [log_action_eq]
  split_ifs with hc
  · rw [renumber_length, List.length_drop]
    simp only [List.length_append, List.length_cons, List.length_nil]
    omega
  · simp only [List.length_append, List.length_cons, List.length_nil]
    omega

/-- The contents after one append: the old contents plus the new one, with
the front dropped when the cap is exceeded. -/
theorem log_action_map_content (h : List ActionRecord) (inp : AppendInput) :
    (log_action h inp).map content =
      (h.map content ++ [mkContent inp]).drop (h.length + 1 - 50) := by
  rw [log_action_eq]
  split_ifs with hc
  · rw [renumber_map_content, List.map_drop, List.map_append]
    rfl
  · have h0 : h.length + 1 - 50 = 0 := by omega
    rw [h0, List.drop_zero, List.map_append]
    rfl

/-- After an append to a history holding at least 50 records, the ids are
exactly `1..50`. -/
theorem log_action_ids_of_full (h : List ActionRecord) (inp : AppendInput)
    (hh : 50 ≤ h.length) :
    (log_action h inp).map ActionRecord.id = List.range' 1 50 := by
  rw [log_action_eq, if_pos (by omega), renumber_map_id, List.length_drop]
  congr 1
  simp only [List.length_append, List.length_cons, List.length_nil]
  omega

/-- Length of the history after a sequence of appends. -/
theorem appendAll_length (inputs : List AppendInput) :
    ∀ h : List ActionRecord, h.length ≤ 50 →
      (appendAll h inputs).length = min (h.length + inputs.length) 50 := by
  induction inputs with
  | nil =>
    intro h hh
    simp only [appendAll, List.foldl_nil, List.length_nil]
    omega
  | cons i rest ih =>
    intro h hh
    have hstep := log_action_length h i
    have hle : (log_action h i).length ≤ 50 := by omega
    have IH := ih (log_action h i) hle
    simp only [appendAll, List.foldl_cons] at IH ⊢
    rw [IH, hstep]
    simp only [List.length_cons]
    omega

/-- Contents of the history after a sequence of appends: the suffix of the
concatenated contents that fits under the cap. -/
theorem appendAll_map_content (inputs : List AppendInput) :
    ∀ h : List ActionRecord, h.length ≤ 50 →
      (appendAll h inputs).map content =
        (h.map content ++ inputs.map mkContent).drop
          (h.length + inputs.length - 50) := by
  induction inputs with
  | nil =>
    intro h hh
    have h0 : h.length - 50 = 0 := by omega
    simp [appendAll, h0]
  | cons i rest ih =>
    intro h hh
    have hle : (log_action h i).length ≤ 50 := by
      have := log_action_length h i
      omega
    have IH := ih (log_action h i) hle
    simp only [appendAll, List.foldl_cons] at IH ⊢
    rw [IH, log_action_map_content, log_action_length]
    simp only [List.map_cons, List.length_cons]
    by_cases hc : h.length + 1 ≤ 50
    · have e1 : h.length + 1 - 50 = 0 := by omega
      have e2 : min (h.length + 1) 50 = h.length + 1 := by omega
      rw [e1, e2, List.drop_zero, List.append_assoc, List.singleton_append]
      congr 1
      omega
    · have e2 : min (h.length + 1) 50 = 50 := by omega
      rw [e2]
      have hk : h.length + 1 - 50 ≤ (List.map content h ++ [mkContent i]).length := by
        simp only [List.length_append, List.length_map, List.length_cons,
          List.length_nil]
        omega
      rw [← List.drop_append_of_le_length hk, List.drop_drop, List.append_assoc,
        List.singleton_append]
      congr 1
      omega

/-- C1: after any sequence of more than 50 appends (from any store state
within the cap), the stored log holds exactly the 50 most recently appended
records, in chronological order, and their ids are exactly `1..50`. -/
theorem c1_cap_trim_keeps_last_fifty (h : List ActionRecord)
    (inputs : List AppendInput) (hh : h.length ≤ 50) (hm : 50 < inputs.length) :
    (appendAll h inputs).map content =
      (inputs.drop (inputs.length - 50)).map mkContent ∧
    (appendAll h inputs).map ActionRecord.id = List.range' 1 50 := by
  constructor
  · rw [appendAll_map_content inputs h hh]
    have e : h.length + inputs.length - 50 =
        (List.map content h).length + (inputs.length - 50) := by
      simp only [List.length_map]
      omega
    rw [e, ← List.drop_drop, List.drop_left, List.map_drop]
  · have hne : inputs ≠ [] := by
      intro e
      rw [e] at hm
      simp at hm
    obtain ⟨l', a, e⟩ : ∃ l' a, inputs = l' ++ [a] :=
      ⟨inputs.dropLast, inputs.getLast hne, (List.dropLast_append_getLast hne).symm⟩
    have hl' : 50 ≤ l'.length := by
      rw [e, List.length_append, List.length_cons, List.length_nil] at hm
      omega
    rw [e]
    show (List.foldl log_action h (l' ++ [a])).map ActionRecord.id = List.range' 1 50
    rw [List.foldl_concat]
    apply log_action_ids_of_full
    show 50 ≤ (appendAll h l').length
    rw [appendAll_length l' h hh]
    omega

/-- A `save` input for witnesses. -/
def inpW : AppendInput := ⟨"save", [], none, none, "t"⟩

/-- Witness for C1: 51 appends into an empty store leave the last 50 inputs
with ids `1..50`. -/
theorem c1_cap_trim_keeps_last_fifty_witness :
    (appendAll [] (List.replicate 51 inpW)).map content =
      ((List.replicate 51 inpW).drop ((List.replicate 51 inpW).length - 50)).map
        mkContent ∧
    (appendAll [] (List.replicate 51 inpW)).map ActionRecord.id =
      List.range' 1 50 :=
  c1_cap_trim_keeps_last_fifty [] (List.replicate 51 inpW) (by decide) (by decide)

/-- The tail of a renumbered concatenation is the appended record with a
fresh id. -/
theorem renumber_getLast?_concat (x : List ActionRecord) (a : ActionRecord) :
    (renumber (x ++ [a])).getLast? = some { a with id := x.length + 1 } := by
  unfold renumber
  rw [show (x ++ [a]).enum = List.enumFrom 0 (x ++ [a]) from rfl,
    List.enumFrom_append, List.enumFrom_singleton, List.map_append]
  simp

/-- C9: the record stored by `log_action` and read back from the store
(`get_history` with no limit, i.e. `read_all`) preserves `action_type`,
`details`, `undo_command` and `undo_details` exactly: an absent
`undo_command` is stored as `None` and absent `undo_details` as the empty
dict. -/
theorem c9_log_action_round_trip (h : List ActionRecord) (inp : AppendInput) :
    ∃ r, (get_history (log_action h inp) none).getLast? = some r ∧
      r.action_type = inp.action_type ∧ r.details = inp.details ∧
      r.undo_command = inp.undo_command ∧
      r.undo_details = inp.undo_details.getD [] := by
  rw [show get_history (log_action h inp) none = log_action h inp from rfl,
    log_action_eq]
  split_ifs with hc
  · have hkle : h.length + 1 - 50 ≤ h.length := by omega
    rw [List.drop_append_of_le_length hkle, renumber_getLast?_concat]
    exact ⟨_, rfl, rfl, rfl, rfl, rfl⟩
  · rw [List.getLast?_concat]
    exact ⟨_, rfl, rfl, rfl, rfl, rfl⟩

/-- A record with a given id and no other content. -/
def recId (n : Nat) : ActionRecord := ⟨n, "t", "save", [], none, []⟩

/-- C10: every store operation — `log_action` (append with cap-trim),
`remove_last_action`, `clear_history` — preserves the invariant that the
stored ids are exactly `1..N` in order, `N` the log length. -/
theorem c10_store_ops_preserve_dense_ids (h : List ActionRecord)
    (inp : AppendInput) (hinv : idsDense h) :
    idsDense (log_action h inp) ∧ idsDense (remove_last_action h).2 ∧
    idsDense (clear_history h) := by
  refine ⟨?_, ?_, ?_⟩
  · by_cases hc : 50 ≤ h.length
    · unfold idsDense
      rw [log_action_ids_of_full h inp hc, log_action_length]
      congr 1
      omega
    · unfold idsDense
      rw [log_action_eq, if_neg (by omega), List.map_append, List.length_append]
      unfold idsDense at hinv
      rw [hinv]
      simp only [List.map_cons, List.map_nil, List.length_cons, List.length_nil]
      rw [List.range'_concat]
      congr 1
      simp only [newRec]
      simp only [List.cons.injEq, and_true]
      omega
  · unfold remove_last_action
    cases hgl : h.getLast? with
    | none => exact hinv
    | some a =>
      dsimp only
      unfold idsDense at hinv ⊢
      rw [List.map_dropLast, hinv, List.length_dropLast]
      cases hn : h.length with
      | zero => simp
      | succ n =>
        rw [List.range'_concat, List.dropLast_concat]
        simp
  · unfold idsDense clear_history
    rfl

/-- Witness for C10 on a concrete two-record store. -/
theorem c10_store_ops_preserve_dense_ids_witness :
    idsDense [recId 1, recId 2] ∧
    idsDense (log_action [recId 1, recId 2] inpW) ∧
    idsDense (remove_last_action [recId 1, recId 2]).2 ∧
    idsDense (clear_history [recId 1, recId 2]) := by
  have h := c10_store_ops_preserve_dense_ids [recId 1, recId 2] inpW
    (by unfold idsDense; decide)
  exact ⟨by unfold idsDense; decide, h.1, h.2.1, h.2.2⟩
